import Mathlib

/-!
Shallow embedding of the yuhi-sa/emulator repository (src/eval.rs, src/parser.rs):
a small AArch64-inspired assembly interpreter.  Rust u64 values are modelled as
Nat with explicit reduction modulo 2^64 where the source relies on native
unsigned wraparound; Rust panics are modelled as fault results carrying the
panic message.
-/

namespace Emulator

/-- Condition codes produced by the cmp instruction (eval.rs, enum Condition). -/
inductive Condition where
  | Eq
  | Lt
deriving DecidableEq

/-- Register names x0..x30 (parser.rs, enum Register). -/
inductive Register where
  | X0 | X1 | X2 | X3 | X4 | X5 | X6 | X7 | X8 | X9
  | X10 | X11 | X12 | X13 | X14 | X15 | X16 | X17 | X18 | X19
  | X20 | X21 | X22 | X23 | X24 | X25 | X26 | X27 | X28 | X29
  | X30
deriving DecidableEq

/-- Arithmetic opcodes (parser.rs, enum ArithOpcode). -/
inductive ArithOpcode where
  | Add
  | Sub
  | Mul
  | Div
deriving DecidableEq

/-- Branch opcodes (parser.rs, enum BranchOpcode). -/
inductive BranchOpcode where
  | Beq
  | Blt
deriving DecidableEq

/-- Operand that is either a register or an immediate (parser.rs, enum RegOrNum). -/
inductive RegOrNum where
  | Reg (r : Register)
  | Num (n : Nat)
deriving DecidableEq

/-- Instructions (parser.rs, enum Op). -/
inductive Op where
  | Mov (dst : Register) (src : RegOrNum)
  | Cmp (r1 r2 : Register)
  | ArithOp (opcode : ArithOpcode) (r1 r2 r3 : Register)
  | BranchOp (opcode : BranchOpcode) (line : Nat)
deriving DecidableEq

/-- The register file plus condition flag (eval.rs, struct Context).
Each Rust u64 field is modelled as a Nat. -/
structure Context where
  cond : Condition
  x0 : Nat
  x1 : Nat
  x2 : Nat
  x3 : Nat
  x4 : Nat
  x5 : Nat
  x6 : Nat
  x7 : Nat
  x8 : Nat
  x9 : Nat
  x10 : Nat
  x11 : Nat
  x12 : Nat
  x13 : Nat
  x14 : Nat
  x15 : Nat
  x16 : Nat
  x17 : Nat
  x18 : Nat
  x19 : Nat
  x20 : Nat
  x21 : Nat
  x22 : Nat
  x23 : Nat
  x24 : Nat
  x25 : Nat
  x26 : Nat
  x27 : Nat
  x28 : Nat
  x29 : Nat
  x30 : Nat
deriving DecidableEq

/-- Context::new (eval.rs): the flag defaults to Eq and every register to 0. -/
def Context.new : Context where
  cond := .Eq
  x0 := 0
  x1 := 0
  x2 := 0
  x3 := 0
  x4 := 0
  x5 := 0
  x6 := 0
  x7 := 0
  x8 := 0
  x9 := 0
  x10 := 0
  x11 := 0
  x12 := 0
  x13 := 0
  x14 := 0
  x15 := 0
  x16 := 0
  x17 := 0
  x18 := 0
  x19 := 0
  x20 := 0
  x21 := 0
  x22 := 0
  x23 := 0
  x24 := 0
  x25 := 0
  x26 := 0
  x27 := 0
  x28 := 0
  x29 := 0
  x30 := 0

/-- Context::get_reg (eval.rs). -/
def get_reg (ctx : Context) (r : Register) : Nat :=
  match r with
  | .X0 => ctx.x0
  | .X1 => ctx.x1
  | .X2 => ctx.x2
  | .X3 => ctx.x3
  | .X4 => ctx.x4
  | .X5 => ctx.x5
  | .X6 => ctx.x6
  | .X7 => ctx.x7
  | .X8 => ctx.x8
  | .X9 => ctx.x9
  | .X10 => ctx.x10
  | .X11 => ctx.x11
  | .X12 => ctx.x12
  | .X13 => ctx.x13
  | .X14 => ctx.x14
  | .X15 => ctx.x15
  | .X16 => ctx.x16
  | .X17 => ctx.x17
  | .X18 => ctx.x18
  | .X19 => ctx.x19
  | .X20 => ctx.x20
  | .X21 => ctx.x21
  | .X22 => ctx.x22
  | .X23 => ctx.x23
  | .X24 => ctx.x24
  | .X25 => ctx.x25
  | .X26 => ctx.x26
  | .X27 => ctx.x27
  | .X28 => ctx.x28
  | .X29 => ctx.x29
  | .X30 => ctx.x30

/-- Context::set_reg (eval.rs). -/
def set_reg (ctx : Context) (r : Register) (v : Nat) : Context :=
  match r with
  | .X0 => { ctx with x0 := v }
  | .X1 => { ctx with x1 := v }
  | .X2 => { ctx with x2 := v }
  | .X3 => { ctx with x3 := v }
  | .X4 => { ctx with x4 := v }
  | .X5 => { ctx with x5 := v }
  | .X6 => { ctx with x6 := v }
  | .X7 => { ctx with x7 := v }
  | .X8 => { ctx with x8 := v }
  | .X9 => { ctx with x9 := v }
  | .X10 => { ctx with x10 := v }
  | .X11 => { ctx with x11 := v }
  | .X12 => { ctx with x12 := v }
  | .X13 => { ctx with x13 := v }
  | .X14 => { ctx with x14 := v }
  | .X15 => { ctx with x15 := v }
  | .X16 => { ctx with x16 := v }
  | .X17 => { ctx with x17 := v }
  | .X18 => { ctx with x18 := v }
  | .X19 => { ctx with x19 := v }
  | .X20 => { ctx with x20 := v }
  | .X21 => { ctx with x21 := v }
  | .X22 => { ctx with x22 := v }
  | .X23 => { ctx with x23 := v }
  | .X24 => { ctx with x24 := v }
  | .X25 => { ctx with x25 := v }
  | .X26 => { ctx with x26 := v }
  | .X27 => { ctx with x27 := v }
  | .X28 => { ctx with x28 := v }
  | .X29 => { ctx with x29 := v }
  | .X30 => { ctx with x30 := v }

/-- Modulus of the Rust u64 type. -/
def WORD : Nat := 2 ^ 64

/-- eval_cmp (eval.rs): returns whether register r1 holds a value strictly
less than register r2.  Note that the Rust function takes the context by
mutable reference but never writes to it; in particular it never writes the
cond flag. -/
def eval_cmp (ctx : Context) (r1 r2 : Register) : Bool :=
  get_reg ctx r1 < get_reg ctx r2

/-- eval_arith (eval.rs).  Add/Sub/Mul are Rust u64 operations relying on
native unsigned wraparound, modelled on Nat with explicit reduction mod 2^64
(for Sub, Rust wrapping subtraction of u64 values).  Division by zero panics
in Rust; this is modelled as none. -/
def eval_arith (ctx : Context) (opcode : ArithOpcode) (r1 r2 r3 : Register) :
    Option Context :=
  let value2 := get_reg ctx r2
  let value3 := get_reg ctx r3
  match opcode with
  | .Add => some (set_reg ctx r1 ((value2 + value3) % WORD))
  | .Sub => some (set_reg ctx r1 ((WORD + value2 % WORD - value3 % WORD) % WORD))
  | .Mul => some (set_reg ctx r1 ((value2 * value3) % WORD))
  | .Div => if value3 = 0 then none else some (set_reg ctx r1 (value2 / value3))

/-- eval_mov (eval.rs).  With an immediate source the destination register is
written; with a register source the fetched value is written back into the
source register itself. -/
def eval_mov (ctx : Context) (dst : Register) (src : RegOrNum) : Context :=
  match src with
  | .Num n => set_reg ctx dst n
  | .Reg r => set_reg ctx r (get_reg ctx r)

/-- eval_branch (eval.rs). -/
def eval_branch (ctx : Context) (opcode : BranchOpcode) : Bool :=
  match opcode with
  | .Beq => ctx.cond = Condition.Eq
  | .Blt => ctx.cond = Condition.Lt

/-- Rust panic message for integer division by zero. -/
def divByZeroMsg : String := "attempt to divide by zero"

/-- Rust panic message for an out-of-range program counter (eval.rs, run). -/
def invalidPCMsg : String := "invalid PC"

/-- Outcome of one iteration of the loop body of run (eval.rs). -/
inductive StepResult where
  | next (ctx : Context) (pc : Nat)
  | halt (ctx : Context)
  | fault (msg : String)
deriving DecidableEq

/-- One iteration of the loop in run (eval.rs): check the program counter,
fetch the instruction, apply its effect, and compute the next program
counter.  The Cmp arm reproduces the source exactly: when the comparison is
true it assigns pc = 1 and then the generic pc += 1 applies, resuming at
index 2; when it is false the function returns the current context. -/
def step (ops : List Op) (ctx : Context) (pc : Nat) : StepResult :=
  if pc = ops.length then .halt ctx
  else if h : pc < ops.length then
    match ops.get ⟨pc, h⟩ with
    | .Mov dst src => .next (eval_mov ctx dst src) (pc + 1)
    | .Cmp r1 r2 =>
        if eval_cmp ctx r1 r2 then .next ctx (1 + 1) else .halt ctx
    | .ArithOp opcode r1 r2 r3 =>
        match eval_arith ctx opcode r1 r2 r3 with
        | some ctx2 => .next ctx2 (pc + 1)
        | none => .fault divByZeroMsg
    | .BranchOp opcode line =>
        if eval_branch ctx opcode then .next ctx line else .next ctx (pc + 1)
  else .fault invalidPCMsg

/-- Outcome of a whole run. -/
inductive RunResult where
  | halted (ctx : Context)
  | faulted (msg : String)
  | timeout
deriving DecidableEq

/-- Fuelled unfolding of the loop in run (eval.rs); timeout only means the
fuel ran out, never that the source function returns. -/
def runFuel (ops : List Op) : Nat → Context → Nat → RunResult
  | 0, _, _ => .timeout
  | fuel + 1, ctx, pc =>
      match step ops ctx pc with
      | .next ctx2 pc2 => runFuel ops fuel ctx2 pc2
      | .halt ctx2 => .halted ctx2
      | .fault msg => .faulted msg

/-- State (context, program counter) after exactly k loop iterations of run,
starting from the initial state; none if the run halted or faulted strictly
before the k-th iteration. -/
def stateAfter (ops : List Op) : Nat → Option (Context × Nat)
  | 0 => some (Context.new, 0)
  | k + 1 =>
      match stateAfter ops k with
      | some (ctx, pc) =>
          match step ops ctx pc with
          | .next ctx2 pc2 => some (ctx2, pc2)
          | _ => none
      | none => none

/-- States reachable by run (eval.rs) on a given program. -/
inductive Reachable (ops : List Op) : Context → Nat → Prop where
  | init : Reachable ops Context.new 0
  | succ (ctx : Context) (pc : Nat) (ctx2 : Context) (pc2 : Nat) :
      Reachable ops ctx pc → step ops ctx pc = .next ctx2 pc2 →
      Reachable ops ctx2 pc2

/-- Whitespace recognised by nom multispace0/multispace1. -/
def isSpaceC (c : Char) : Bool :=
  c = ' ' || c = '\t' || c = '\n' || c = '\r'

/-- nom multispace0: drop leading whitespace. -/
def dropSpaces (i : List Char) : List Char :=
  i.dropWhile isSpaceC

/-- nom multispace1: at least one whitespace character, then drop the run. -/
def multispace1 (i : List Char) : Option (List Char) :=
  match i with
  | c :: rest => if isSpaceC c then some (dropSpaces rest) else none
  | [] => none

/-- nom tag: match a literal token at the front, returning the remainder. -/
def tagP : List Char → List Char → Option (List Char)
  | [], i => some i
  | _ :: _, [] => none
  | c :: t, d :: i => if c = d then tagP t i else none

/-- nom alt over tag combinators: first token that matches wins, returning
the remainder and the matched token. -/
def altTag : List (List Char) → List Char → Option (List Char × List Char)
  | [], _ => none
  | t :: ts, i =>
      match tagP t i with
      | some rest => some (rest, t)
      | none => altTag ts i

/-- nom char: match one given character. -/
def charP (c : Char) (i : List Char) : Option (List Char) :=
  match i with
  | d :: rest => if d = c then some rest else none
  | [] => none

/-- Numeric value of a decimal digit string, as Rust str::parse computes it. -/
def natOfDigits (ds : List Char) : Nat :=
  ds.foldl (fun acc c => acc * 10 + (c.toNat - 48)) 0

/-- nom digit1 followed by str::parse: one or more decimal digits, returning
the remainder and the parsed number. -/
def digit1 (i : List Char) : Option (List Char × Nat) :=
  let ds := i.takeWhile Char.isDigit
  if ds = [] then none
  else some (i.dropWhile Char.isDigit, natOfDigits ds)

/-- The register tag alternatives of parse_reg (parser.rs), in source order:
x0..x15 then x16..x30. -/
def regTokens : List (List Char) :=
  ["x0", "x1", "x2", "x3", "x4", "x5", "x6", "x7", "x8", "x9", "x10", "x11",
   "x12", "x13", "x14", "x15", "x16", "x17", "x18", "x19", "x20", "x21",
   "x22", "x23", "x24", "x25", "x26", "x27", "x28", "x29", "x30"].map
    String.toList

/-- The token-to-register match of parse_reg (parser.rs). -/
def tokenToReg (t : List Char) : Option Register :=
  match String.mk t with
  | "x0" => some .X0
  | "x1" => some .X1
  | "x2" => some .X2
  | "x3" => some .X3
  | "x4" => some .X4
  | "x5" => some .X5
  | "x6" => some .X6
  | "x7" => some .X7
  | "x8" => some .X8
  | "x9" => some .X9
  | "x10" => some .X10
  | "x11" => some .X11
  | "x12" => some .X12
  | "x13" => some .X13
  | "x14" => some .X14
  | "x15" => some .X15
  | "x16" => some .X16
  | "x17" => some .X17
  | "x18" => some .X18
  | "x19" => some .X19
  | "x20" => some .X20
  | "x21" => some .X21
  | "x22" => some .X22
  | "x23" => some .X23
  | "x24" => some .X24
  | "x25" => some .X25
  | "x26" => some .X26
  | "x27" => some .X27
  | "x28" => some .X28
  | "x29" => some .X29
  | "x30" => some .X30
  | _ => none

/-- parse_reg (parser.rs): nom alt over the register tags in source order,
then the match mapping the token to a Register. -/
def parse_reg (i : List Char) : Option (List Char × Register) := do
  let (rest, t) ← altTag regTokens i
  let r ← tokenToReg t
  pure (rest, r)

/-- parse_mov (parser.rs), including the peek(alt((char('#'), char('x'))))
step. -/
def parse_mov (i : List Char) : Option (List Char × Op) := do
  let i ← multispace1 i
  let (i, reg1) ← parse_reg i
  let i := dropSpaces i
  let i ← charP ',' i
  let i := dropSpaces i
  match i with
  | '#' :: rest => do
      let (i2, n) ← digit1 rest
      pure (i2, Op.Mov reg1 (RegOrNum.Num n))
  | 'x' :: _ => do
      let (i2, reg2) ← parse_reg i
      pure (i2, Op.Mov reg1 (RegOrNum.Reg reg2))
  | _ => none

/-- parse_cmp (parser.rs). -/
def parse_cmp (i : List Char) : Option (List Char × Op) := do
  let i ← multispace1 i
  let (i, reg1) ← parse_reg i
  let i := dropSpaces i
  let i ← charP ',' i
  let i := dropSpaces i
  let (i, reg2) ← parse_reg i
  pure (i, Op.Cmp reg1 reg2)

/-- parse_arith (parser.rs). -/
def parse_arith (opcode : ArithOpcode) (i : List Char) :
    Option (List Char × Op) := do
  let i ← multispace1 i
  let (i, reg1) ← parse_reg i
  let i := dropSpaces i
  let i ← charP ',' i
  let i := dropSpaces i
  let (i, reg2) ← parse_reg i
  let i := dropSpaces i
  let i ← charP ',' i
  let i := dropSpaces i
  let (i, reg3) ← parse_reg i
  pure (i, Op.ArithOp opcode reg1 reg2 reg3)

/-- parse_branch (parser.rs). -/
def parse_branch (opcode : BranchOpcode) (i : List Char) :
    Option (List Char × Op) := do
  let i ← multispace1 i
  let i ← charP '#' i
  let (i, n) ← digit1 i
  pure (i, Op.BranchOp opcode n)

/-- The mnemonic tag alternatives of parse_asm (parser.rs), in source order. -/
def mnemonicTokens : List (List Char) :=
  ["mov", "cmp", "add", "sub", "mul", "div", "b.eq", "b.lt"].map String.toList

/-- One loop iteration of parse_asm (parser.rs) on a single line: leading
whitespace, blank-line skip (inner none), mnemonic dispatch, and the
trailing-garbage check.  Outer none is a parse failure of the whole load. -/
def parse_asm_line (line : List Char) : Option (Option Op) :=
  let i := dropSpaces line
  if i = [] then some none
  else do
    let (i, tok) ← altTag mnemonicTokens i
    let (i, op) ←
      match String.mk tok with
      | "mov" => parse_mov i
      | "cmp" => parse_cmp i
      | "add" => parse_arith ArithOpcode.Add i
      | "sub" => parse_arith ArithOpcode.Sub i
      | "mul" => parse_arith ArithOpcode.Mul i
      | "div" => parse_arith ArithOpcode.Div i
      | "b.eq" => parse_branch BranchOpcode.Beq i
      | _ => parse_branch BranchOpcode.Blt i
    let i := dropSpaces i
    if i = [] then pure (some op) else none

/-- Split on the newline character. -/
def splitNL : List Char → List (List Char)
  | [] => [[]]
  | '\n' :: rest => [] :: splitNL rest
  | c :: rest =>
      match splitNL rest with
      | l :: ls => (c :: l) :: ls
      | [] => [[c]]

/-- Strip one trailing carriage return, as Rust str::lines does. -/
def stripCR (l : List Char) : List Char :=
  if l.getLast? = some '\r' then l.dropLast else l

/-- Rust str::lines: newline-terminated or newline-separated lines, with a
trailing carriage return removed from each line. -/
def rustLines (s : List Char) : List (List Char) :=
  let parts := splitNL s
  let parts := if parts.getLast? = some [] then parts.dropLast else parts
  parts.map stripCR

/-- parse_asm (parser.rs): parse every line, failing the whole load on the
first bad line, and collect the instructions of the non-blank lines. -/
def parse_asm (input : String) : Option (List Op) := do
  let opts ← (rustLines input.toList).mapM parse_asm_line
  pure (opts.filterMap id)

/-- Index of a register name. -/
def regIndex : Register → Nat
  | .X0 => 0
  | .X1 => 1
  | .X2 => 2
  | .X3 => 3
  | .X4 => 4
  | .X5 => 5
  | .X6 => 6
  | .X7 => 7
  | .X8 => 8
  | .X9 => 9
  | .X10 => 10
  | .X11 => 11
  | .X12 => 12
  | .X13 => 13
  | .X14 => 14
  | .X15 => 15
  | .X16 => 16
  | .X17 => 17
  | .X18 => 18
  | .X19 => 19
  | .X20 => 20
  | .X21 => 21
  | .X22 => 22
  | .X23 => 23
  | .X24 => 24
  | .X25 => 25
  | .X26 => 26
  | .X27 => 27
  | .X28 => 28
  | .X29 => 29
  | .X30 => 30

/-- Textual token of a register name. -/
def regToken : Register → String
  | .X0 => "x0"
  | .X1 => "x1"
  | .X2 => "x2"
  | .X3 => "x3"
  | .X4 => "x4"
  | .X5 => "x5"
  | .X6 => "x6"
  | .X7 => "x7"
  | .X8 => "x8"
  | .X9 => "x9"
  | .X10 => "x10"
  | .X11 => "x11"
  | .X12 => "x12"
  | .X13 => "x13"
  | .X14 => "x14"
  | .X15 => "x15"
  | .X16 => "x16"
  | .X17 => "x17"
  | .X18 => "x18"
  | .X19 => "x19"
  | .X20 => "x20"
  | .X21 => "x21"
  | .X22 => "x22"
  | .X23 => "x23"
  | .X24 => "x24"
  | .X25 => "x25"
  | .X26 => "x26"
  | .X27 => "x27"
  | .X28 => "x28"
  | .X29 => "x29"
  | .X30 => "x30"

/-- A well-formed mov-immediate line using a given register token. -/
def movLine (r : Register) : String :=
  "mov " ++ regToken r ++ ", #1"

/-- Whether an instruction is a Branch. -/
def isBranch : Op → Bool
  | .BranchOp _ _ => true
  | _ => false

/-- Whether an instruction is a Compare. -/
def isCmp : Op → Bool
  | .Cmp _ _ => true
  | _ => false

/-- Whether an instruction is a Divide. -/
def isDiv : Op → Bool
  | .ArithOp .Div _ _ _ => true
  | _ => false

/-- Program loading 5 into x1 and then comparing x0 with x1. -/
def cmpProg : List Op :=
  [Op.Mov Register.X1 (RegOrNum.Num 5), Op.Cmp Register.X0 Register.X1]

/-- Register file after loading 5 into x1. -/
def ctxAfterMov : Context := set_reg Context.new Register.X1 5

/-- Program consisting of a single Compare of x0 with x1. -/
def cmpOnlyProg : List Op := [Op.Cmp Register.X0 Register.X1]

/-- Program whose Compare sits at index 3, with x0 less than x1 there. -/
def cmpJumpProg : List Op :=
  [Op.Mov Register.X1 (RegOrNum.Num 5), Op.Mov Register.X2 (RegOrNum.Num 1),
   Op.Mov Register.X2 (RegOrNum.Num 1), Op.Cmp Register.X0 Register.X1]

/-- Register file after the three moves of cmpJumpProg. -/
def ctxJump : Context :=
  set_reg (set_reg Context.new Register.X1 5) Register.X2 1

/-- Program comparing x0 with x0 (not strictly less) and then moving 7 into
x0; it contains no Branch instruction. -/
def cmpHaltProg : List Op :=
  [Op.Cmp Register.X0 Register.X0, Op.Mov Register.X0 (RegOrNum.Num 7)]

/-- Program dividing by the zero-initialised register x2 at index 0. -/
def divProgA : List Op :=
  [Op.ArithOp ArithOpcode.Div Register.X0 Register.X1 Register.X2]

/-- Program dividing by the zero-initialised register x2 at index 1. -/
def divProgB : List Op :=
  [Op.Mov Register.X3 (RegOrNum.Num 1),
   Op.ArithOp ArithOpcode.Div Register.X0 Register.X1 Register.X2]

/-- A straight-line program with neither Branch nor Compare nor Divide. -/
def straightProg : List Op :=
  [Op.Mov Register.X0 (RegOrNum.Num 42),
   Op.ArithOp ArithOpcode.Add Register.X1 Register.X0 Register.X0]

/-- Final register file of straightProg. -/
def ctxStraight : Context :=
  set_reg (set_reg Context.new Register.X0 42) Register.X1 84

/-- Program consisting of a single BranchIfEqual to index 5. -/
def branchProg : List Op := [Op.BranchOp BranchOpcode.Beq 5]

/-- Program consisting of a single Move of 5 into x0. -/
def movProg : List Op := [Op.Mov Register.X0 (RegOrNum.Num 5)]

/-- Register file after movProg. -/
def ctxMov : Context := set_reg Context.new Register.X0 5

theorem set_get_self (ctx : Context) (r : Register) :
    set_reg ctx r (get_reg ctx r) = ctx := by
  cases r <;> rfl

theorem set_reg_cond (ctx : Context) (r : Register) (v : Nat) :
    (set_reg ctx r v).cond = ctx.cond := by
  cases r <;> rfl

theorem eval_mov_cond (ctx : Context) (dst : Register) (src : RegOrNum) :
    (eval_mov ctx dst src).cond = ctx.cond := by
  cases src <;> simp [eval_mov, set_reg_cond]

theorem eval_arith_cond (ctx : Context) (opcode : ArithOpcode)
    (r1 r2 r3 : Register) (ctx2 : Context)
    (h : eval_arith ctx opcode r1 r2 r3 = some ctx2) :
    ctx2.cond = ctx.cond := by
  cases opcode with
  | Add =>
      simp only [eval_arith, Option.some.injEq] at h
      rw [← h]; exact set_reg_cond ..
  | Sub =>
      simp only [eval_arith, Option.some.injEq] at h
      rw [← h]; exact set_reg_cond ..
  | Mul =>
      simp only [eval_arith, Option.some.injEq] at h
      rw [← h]; exact set_reg_cond ..
  | Div =>
      by_cases hz : get_reg ctx r3 = 0
      · simp [eval_arith, hz] at h
      · simp only [eval_arith, hz, if_false, Option.some.injEq] at h
        rw [← h]; exact set_reg_cond ..

theorem step_at_mov {ops : List Op} {pc : Nat} {dst : Register}
    {src : RegOrNum} (h : ops[pc]? = some (.Mov dst src)) (ctx : Context) :
    step ops ctx pc = .next (eval_mov ctx dst src) (pc + 1) := by
  have hlt : pc < ops.length := (List.getElem?_eq_some.mp h).1
  have hne : ¬ pc = ops.length := Nat.ne_of_lt hlt
  have hget : ops.get ⟨pc, hlt⟩ = Op.Mov dst src := by
    have h2 := (List.getElem?_eq_some.mp h).2
    simpa using h2
  unfold step
  rw [if_neg hne, dif_pos hlt, hget]

theorem step_at_cmp {ops : List Op} {pc : Nat} {r1 r2 : Register}
    (h : ops[pc]? = some (.Cmp r1 r2)) (ctx : Context) :
    step ops ctx pc =
      if eval_cmp ctx r1 r2 then .next ctx (1 + 1) else .halt ctx := by
  have hlt : pc < ops.length := (List.getElem?_eq_some.mp h).1
  have hne : ¬ pc = ops.length := Nat.ne_of_lt hlt
  have hget : ops.get ⟨pc, hlt⟩ = Op.Cmp r1 r2 := by
    have h2 := (List.getElem?_eq_some.mp h).2
    simpa using h2
  unfold step
  rw [if_neg hne, dif_pos hlt, hget]

theorem step_at_arith {ops : List Op} {pc : Nat} {opcode : ArithOpcode}
    {r1 r2 r3 : Register} (h : ops[pc]? = some (.ArithOp opcode r1 r2 r3))
    (ctx : Context) :
    step ops ctx pc =
      match eval_arith ctx opcode r1 r2 r3 with
      | some ctx2 => .next ctx2 (pc + 1)
      | none => .fault divByZeroMsg := by
  have hlt : pc < ops.length := (List.getElem?_eq_some.mp h).1
  have hne : ¬ pc = ops.length := Nat.ne_of_lt hlt
  have hget : ops.get ⟨pc, hlt⟩ = Op.ArithOp opcode r1 r2 r3 := by
    have h2 := (List.getElem?_eq_some.mp h).2
    simpa using h2
  unfold step
  rw [if_neg hne, dif_pos hlt, hget]

theorem step_at_branch {ops : List Op} {pc : Nat} {opcode : BranchOpcode}
    {line : Nat} (h : ops[pc]? = some (.BranchOp opcode line)) (ctx : Context) :
    step ops ctx pc =
      if eval_branch ctx opcode then .next ctx line
      else .next ctx (pc + 1) := by
  have hlt : pc < ops.length := (List.getElem?_eq_some.mp h).1
  have hne : ¬ pc = ops.length := Nat.ne_of_lt hlt
  have hget : ops.get ⟨pc, hlt⟩ = Op.BranchOp opcode line := by
    have h2 := (List.getElem?_eq_some.mp h).2
    simpa using h2
  unfold step
  rw [if_neg hne, dif_pos hlt, hget]

theorem step_cond_preserved {ops : List Op} {ctx : Context} {pc : Nat}
    {ctx2 : Context} {pc2 : Nat} (h : step ops ctx pc = .next ctx2 pc2) :
    ctx2.cond = ctx.cond := by
  by_cases h1 : pc = ops.length
  · simp [step, h1] at h
  by_cases h2 : pc < ops.length
  · cases hget : ops.get ⟨pc, h2⟩ with
    | Mov dst src =>
        have hsome : ops[pc]? = some (Op.Mov dst src) := by
          rw [List.getElem?_eq_getElem h2]
          simpa using hget
        rw [step_at_mov hsome ctx] at h
        simp only [StepResult.next.injEq] at h
        rw [← h.1]; exact eval_mov_cond ..
    | Cmp r1 r2 =>
        have hsome : ops[pc]? = some (Op.Cmp r1 r2) := by
          rw [List.getElem?_eq_getElem h2]
          simpa using hget
        rw [step_at_cmp hsome ctx] at h
        by_cases hcmp : eval_cmp ctx r1 r2
        · simp only [hcmp, if_true, StepResult.next.injEq] at h
          rw [← h.1]
        · simp [hcmp] at h
    | ArithOp opcode r1 r2 r3 =>
        have hsome : ops[pc]? = some (Op.ArithOp opcode r1 r2 r3) := by
          rw [List.getElem?_eq_getElem h2]
          simpa using hget
        rw [step_at_arith hsome ctx] at h
        cases ha : eval_arith ctx opcode r1 r2 r3 with
        | some c2 =>
            rw [ha] at h
            simp only [StepResult.next.injEq] at h
            rw [← h.1]; exact eval_arith_cond ctx opcode r1 r2 r3 c2 ha
        | none => rw [ha] at h; simp at h
    | BranchOp opcode line =>
        have hsome : ops[pc]? = some (Op.BranchOp opcode line) := by
          rw [List.getElem?_eq_getElem h2]
          simpa using hget
        rw [step_at_branch hsome ctx] at h
        by_cases hbr : eval_branch ctx opcode
        · simp only [hbr, if_true, StepResult.next.injEq] at h
          rw [← h.1]
        · simp only [hbr, Bool.false_eq_true, if_false,
            StepResult.next.injEq] at h
          rw [← h.1]
  · simp [step, h1, h2] at h

theorem runFuel_succ (ops : List Op) (fuel : Nat) (ctx : Context) (pc : Nat) :
    runFuel ops (fuel + 1) ctx pc =
      match step ops ctx pc with
      | .next ctx2 pc2 => runFuel ops fuel ctx2 pc2
      | .halt ctx2 => .halted ctx2
      | .fault msg => .faulted msg := rfl

theorem stateAfter_succ (ops : List Op) (k : Nat) :
    stateAfter ops (k + 1) =
      match stateAfter ops k with
      | some (ctx, pc) =>
          match step ops ctx pc with
          | .next ctx2 pc2 => some (ctx2, pc2)
          | _ => none
      | none => none := rfl

theorem runFuel_shift (ops : List Op) :
    ∀ k c p, stateAfter ops k = some (c, p) →
      ∀ m, runFuel ops (k + (m + 1)) Context.new 0 = runFuel ops (m + 1) c p := by
  intro k
  induction k with
  | zero =>
      intro c p h m
      simp only [stateAfter, Option.some.injEq, Prod.mk.injEq] at h
      rw [Nat.zero_add, ← h.1, ← h.2]
  | succ k ih =>
      intro c p h m
      rw [stateAfter_succ] at h
      cases hk : stateAfter ops k with
      | none => rw [hk] at h; simp at h
      | some cp =>
          obtain ⟨c0, p0⟩ := cp
          rw [hk] at h
          have h2 : (match step ops c0 p0 with
              | StepResult.next ctx2 pc2 => some (ctx2, pc2)
              | _ => none) = some (c, p) := h
          cases hs : step ops c0 p0 with
          | next c1 p1 =>
              rw [hs] at h2
              simp only [Option.some.injEq, Prod.mk.injEq] at h2
              have hstep2 : runFuel ops (m + 1 + 1) c0 p0 =
                  runFuel ops (m + 1) c1 p1 := by
                rw [runFuel_succ, hs]
              have harith : k + 1 + (m + 1) = k + (m + 1 + 1) := by omega
              rw [harith, ih c0 p0 hk (m + 1), hstep2, h2.1, h2.2]
          | halt c1 => rw [hs] at h2; simp at h2
          | fault msg => rw [hs] at h2; simp at h2

theorem step_at_end (ops : List Op) (ctx : Context) :
    step ops ctx ops.length = .halt ctx := by
  unfold step
  rw [if_pos rfl]

theorem step_straight {ops : List Op}
    (hb : ∀ op ∈ ops, isBranch op = false)
    (hc : ∀ op ∈ ops, isCmp op = false)
    (hd : ∀ op ∈ ops, isDiv op = false)
    {pc : Nat} (hlt : pc < ops.length) (ctx : Context) :
    ∃ ctx2, step ops ctx pc = .next ctx2 (pc + 1) := by
  have hmem : ops.get ⟨pc, hlt⟩ ∈ ops := List.get_mem ops pc hlt
  have hsome : ops[pc]? = some (ops.get ⟨pc, hlt⟩) := by
    rw [List.getElem?_eq_getElem hlt, List.get_eq_getElem]
  cases hget : ops.get ⟨pc, hlt⟩ with
  | Mov dst src =>
      rw [hget] at hsome
      exact ⟨eval_mov ctx dst src, step_at_mov hsome ctx⟩
  | Cmp r1 r2 =>
      have := hc _ hmem
      rw [hget] at this
      simp [isCmp] at this
  | ArithOp opcode r1 r2 r3 =>
      rw [hget] at hsome
      cases opcode with
      | Add =>
          refine ⟨set_reg ctx r1 ((get_reg ctx r2 + get_reg ctx r3) % WORD), ?_⟩
          rw [step_at_arith hsome ctx]
          rfl
      | Sub =>
          refine ⟨set_reg ctx r1
            ((WORD + get_reg ctx r2 % WORD - get_reg ctx r3 % WORD) % WORD), ?_⟩
          rw [step_at_arith hsome ctx]
          rfl
      | Mul =>
          refine ⟨set_reg ctx r1 ((get_reg ctx r2 * get_reg ctx r3) % WORD), ?_⟩
          rw [step_at_arith hsome ctx]
          rfl
      | Div =>
          have := hd _ hmem
          rw [hget] at this
          simp [isDiv] at this
  | BranchOp opcode line =>
      have := hb _ hmem
      rw [hget] at this
      simp [isBranch] at this

/-- C7: a register-to-register Move writes the fetched value of the source
operand register back into that same source register, leaves the destination
untouched, and is a no-op on the observable register file. -/
theorem mov_reg_to_reg_is_noop (ctx : Context) (dst src : Register) :
    eval_mov ctx dst (RegOrNum.Reg src) = set_reg ctx src (get_reg ctx src) ∧
    eval_mov ctx dst (RegOrNum.Reg src) = ctx :=
  ⟨rfl, set_get_self ctx src⟩

/-- C9: Add, Subtract and Multiply write to the destination register the
exact mathematical result reduced modulo 2 to the 64, the native unsigned
64-bit wraparound, for all operand values. -/
theorem arith_wraps_mod_two_pow_64 (ctx : Context) (r1 r2 r3 : Register) :
    eval_arith ctx ArithOpcode.Add r1 r2 r3 =
      some (set_reg ctx r1
        ((((get_reg ctx r2 : Int) + (get_reg ctx r3 : Int)) %
          (2 ^ 64 : Int)).toNat)) ∧
    eval_arith ctx ArithOpcode.Sub r1 r2 r3 =
      some (set_reg ctx r1
        ((((get_reg ctx r2 : Int) - (get_reg ctx r3 : Int)) %
          (2 ^ 64 : Int)).toNat)) ∧
    eval_arith ctx ArithOpcode.Mul r1 r2 r3 =
      some (set_reg ctx r1
        ((((get_reg ctx r2 : Int) * (get_reg ctx r3 : Int)) %
          (2 ^ 64 : Int)).toNat)) := by
  have hadd : ∀ a b : Nat,
      (a + b) % WORD = (((a : Int) + (b : Int)) % (2 ^ 64 : Int)).toNat := by
    intro a b
    simp only [WORD]
    omega
  have hsub : ∀ a b : Nat,
      (WORD + a % WORD - b % WORD) % WORD =
        (((a : Int) - (b : Int)) % (2 ^ 64 : Int)).toNat := by
    intro a b
    simp only [WORD]
    omega
  have hmul : ∀ a b : Nat,
      (a * b) % WORD = (((a : Int) * (b : Int)) % (2 ^ 64 : Int)).toNat := by
    intro a b
    simp only [WORD]
    have hcast : ((a * b : Nat) : Int) = (a : Int) * (b : Int) := by
      push_cast
      ring
    rw [← hcast]
    omega
  refine ⟨?_, ?_, ?_⟩
  · exact congrArg some (congrArg (set_reg ctx r1) (hadd _ _))
  · exact congrArg some (congrArg (set_reg ctx r1) (hsub _ _))
  · exact congrArg some (congrArg (set_reg ctx r1) (hmul _ _))

/-- C10: in every reachable state the condition flag equals Eq, its initial
value: no instruction ever writes the flag, so BranchIfEqual is always taken
and BranchIfLessThan is never taken. -/
theorem flag_always_eq (ops : List Op) (ctx : Context) (pc : Nat)
    (h : Reachable ops ctx pc) :
    ctx.cond = Condition.Eq ∧ eval_branch ctx BranchOpcode.Beq = true ∧
      eval_branch ctx BranchOpcode.Blt = false := by
  induction h with
  | init => exact ⟨rfl, by decide, by decide⟩
  | succ ctx pc ctx2 pc2 hr hs ih =>
      have hc : ctx2.cond = Condition.Eq := (step_cond_preserved hs).trans ih.1
      exact ⟨hc, by simp [eval_branch, hc], by simp [eval_branch, hc]⟩

/-- C10 witness: evaluated at the state reached after one Move. -/
theorem flag_always_eq_witness :
    ctxMov.cond = Condition.Eq ∧ eval_branch ctxMov BranchOpcode.Beq = true ∧
      eval_branch ctxMov BranchOpcode.Blt = false :=
  flag_always_eq movProg ctxMov 1
    (Reachable.succ Context.new 0 ctxMov 1 Reachable.init (by decide))

/-- C3: executing a Compare with register A's value not strictly less than
register B's value returns the current register file immediately, and with
A strictly less than B the program counter is set to 1 and then incremented,
so execution resumes at index 2 no matter where the Compare is located. -/
theorem cmp_true_resumes_at_two_false_halts (ops : List Op) (ctx : Context)
    (pc : Nat) (r1 r2 : Register) (h : ops[pc]? = some (Op.Cmp r1 r2)) :
    (get_reg ctx r1 < get_reg ctx r2 →
      step ops ctx pc = StepResult.next ctx 2) ∧
    (¬ get_reg ctx r1 < get_reg ctx r2 →
      step ops ctx pc = StepResult.halt ctx) := by
  have hs := step_at_cmp h ctx
  constructor
  · intro hlt
    have hb : eval_cmp ctx r1 r2 = true := by simp [eval_cmp, hlt]
    rw [hs, hb]
    rfl
  · intro hge
    have hb : eval_cmp ctx r1 r2 = false := by simp [eval_cmp, hge]
    rw [hs, hb]
    rfl

/-- C3 witness: a Compare of x0 with x1 when x1 holds 5. -/
theorem cmp_true_resumes_at_two_false_halts_witness :
    step cmpOnlyProg ctxAfterMov 0 = StepResult.next ctxAfterMov 2 :=
  (cmp_true_resumes_at_two_false_halts cmpOnlyProg ctxAfterMov 0
    Register.X0 Register.X1 (by decide)).1 (by decide)

/-- C6 amended: a Divide whose second operand register holds 0 makes the run
stop immediately with the division-by-zero panic surfaced to the caller,
rather than producing a value; the surfaced failure does not include the
offending instruction's position. -/
theorem div_by_zero_faults_immediately (ops : List Op) (ctx : Context)
    (pc : Nat) (r1 r2 r3 : Register)
    (h : ops[pc]? = some (Op.ArithOp ArithOpcode.Div r1 r2 r3))
    (hz : get_reg ctx r3 = 0) :
    step ops ctx pc = StepResult.fault divByZeroMsg ∧
    runFuel ops 1 ctx pc = RunResult.faulted divByZeroMsg := by
  have hs := step_at_arith h ctx
  have ha : eval_arith ctx ArithOpcode.Div r1 r2 r3 = none := by
    simp [eval_arith, hz]
  rw [ha] at hs
  refine ⟨hs, ?_⟩
  show runFuel ops (0 + 1) ctx pc = RunResult.faulted divByZeroMsg
  rw [runFuel_succ, hs]

/-- C6 witness: a Divide by the zero-initialised x2 at index 0. -/
theorem div_by_zero_faults_immediately_witness :
    step divProgA Context.new 0 = StepResult.fault divByZeroMsg :=
  (div_by_zero_faults_immediately divProgA Context.new 0
    Register.X0 Register.X1 Register.X2 (by decide) (by decide)).1

/-- C6 counterexample: two programs whose division by zero sits at different
positions (index 0 and index 1) produce identical run results, so the
surfaced failure does not carry the offending instruction's position. -/
theorem div_fault_position_not_surfaced :
    runFuel divProgA 1 Context.new 0 = RunResult.faulted divByZeroMsg ∧
    runFuel divProgB 2 Context.new 0 = RunResult.faulted divByZeroMsg ∧
    divProgA ≠ divProgB := by decide

/-- C8: a Branch whose predicate holds sets the program counter to the
target with no fall-through increment, and otherwise the counter becomes
pc plus 1; the register file and flag are unchanged in both cases. -/
theorem branch_taken_and_fallthrough (ops : List Op) (ctx : Context)
    (pc : Nat) (opcode : BranchOpcode) (t : Nat)
    (h : ops[pc]? = some (Op.BranchOp opcode t)) :
    ((opcode = BranchOpcode.Beq ∧ ctx.cond = Condition.Eq) ∨
        (opcode = BranchOpcode.Blt ∧ ctx.cond = Condition.Lt) →
      step ops ctx pc = StepResult.next ctx t) ∧
    (¬ ((opcode = BranchOpcode.Beq ∧ ctx.cond = Condition.Eq) ∨
        (opcode = BranchOpcode.Blt ∧ ctx.cond = Condition.Lt)) →
      step ops ctx pc = StepResult.next ctx (pc + 1)) := by
  have hs := step_at_branch h ctx
  constructor
  · rintro (⟨rfl, hcond⟩ | ⟨rfl, hcond⟩) <;> rw [hs] <;>
      simp [eval_branch, hcond]
  · intro hn
    have hb : eval_branch ctx opcode = false := by
      cases opcode with
      | Beq =>
          cases hcond : ctx.cond with
          | Eq => exact absurd (Or.inl ⟨rfl, hcond⟩) hn
          | Lt => simp [eval_branch, hcond]
      | Blt =>
          cases hcond : ctx.cond with
          | Eq => simp [eval_branch, hcond]
          | Lt => exact absurd (Or.inr ⟨rfl, hcond⟩) hn
    rw [hs, hb]
    rfl

/-- C8 witness: a taken BranchIfEqual from the initial flag. -/
theorem branch_taken_and_fallthrough_witness :
    step branchProg Context.new 0 = StepResult.next Context.new 5 :=
  (branch_taken_and_fallthrough branchProg Context.new 0
    BranchOpcode.Beq 5 (by decide)).1 (Or.inl ⟨rfl, rfl⟩)

/-- C5 amended: a program containing no Branch, no Compare and no Divide
instructions always terminates after exactly length steps, with the program
counter taking the trajectory 0, 1, ..., length and halting at length. -/
theorem straightline_trajectory (ops : List Op)
    (hb : ∀ op ∈ ops, isBranch op = false)
    (hc : ∀ op ∈ ops, isCmp op = false)
    (hd : ∀ op ∈ ops, isDiv op = false) :
    (∀ k, k ≤ ops.length → ∃ ctx, stateAfter ops k = some (ctx, k)) ∧
    ∃ ctx, stateAfter ops ops.length = some (ctx, ops.length) ∧
      runFuel ops (ops.length + 1) Context.new 0 = RunResult.halted ctx := by
  have traj : ∀ k, k ≤ ops.length →
      ∃ ctx, stateAfter ops k = some (ctx, k) := by
    intro k
    induction k with
    | zero => intro _; exact ⟨Context.new, rfl⟩
    | succ k ih =>
        intro hk1
        obtain ⟨c, hck⟩ := ih (Nat.le_of_succ_le hk1)
        have hklt : k < ops.length := Nat.lt_of_succ_le hk1
        obtain ⟨c2, hs⟩ := step_straight hb hc hd hklt c
        refine ⟨c2, ?_⟩
        rw [stateAfter_succ, hck]
        show (match step ops c k with
          | StepResult.next ctx2 pc2 => some (ctx2, pc2)
          | _ => none) = some (c2, k + 1)
        rw [hs]
  refine ⟨traj, ?_⟩
  obtain ⟨c, hcl⟩ := traj ops.length (Nat.le_refl _)
  refine ⟨c, hcl, ?_⟩
  have hrf := runFuel_shift ops ops.length c ops.length hcl 0
  calc runFuel ops (ops.length + 1) Context.new 0
      = runFuel ops (ops.length + (0 + 1)) Context.new 0 := by norm_num
    _ = runFuel ops (0 + 1) c ops.length := hrf
    _ = RunResult.halted c := by rw [runFuel_succ, step_at_end]

/-- C5 witness: the two-instruction straight-line program halts with x0
holding 42 and x1 holding 84. -/
theorem straightline_trajectory_witness :
    runFuel straightProg 3 Context.new 0 = RunResult.halted ctxStraight := by
  obtain ⟨-, c, hst, hrun⟩ := straightline_trajectory straightProg
    (by decide) (by decide) (by decide)
  have hlen : straightProg.length = 2 := rfl
  rw [hlen] at hst hrun
  have hconc : stateAfter straightProg 2 = some (ctxStraight, 2) := by decide
  rw [hconc] at hst
  simp only [Option.some.injEq, Prod.mk.injEq] at hst
  calc runFuel straightProg 3 Context.new 0
      = runFuel straightProg (2 + 1) Context.new 0 := rfl
    _ = RunResult.halted c := hrun
    _ = RunResult.halted ctxStraight := by rw [hst.1]

/-- C5 counterexample: cmpHaltProg contains no Branch instruction and has
length 2, yet the run halts after a single step: the counter never takes the
value 1 and the run does not last exactly length steps. -/
theorem no_branch_program_halts_early :
    (∀ op ∈ cmpHaltProg, isBranch op = false) ∧
    cmpHaltProg.length = 2 ∧
    stateAfter cmpHaltProg 1 = none ∧
    runFuel cmpHaltProg 1 Context.new 0 = RunResult.halted Context.new := by
  decide

/-- C4 counterexample: the well-formed line mov x10, #1 fails to parse,
although the claim says every register token x0 through x30 parses. -/
theorem mov_x10_parse_fails :
    movLine Register.X10 = "mov x10, #1" ∧
    parse_asm "mov x10, #1" = none := by
  constructor
  · rfl
  · decide

/-- C4 amended: the loader accepts exactly the register tokens x0 through
x9: a well-formed mov line using such a token parses into the corresponding
typed instruction, while every line using x10 through x30, and any other
identifier such as x31, is a parse failure that never reaches the engine. -/
theorem loader_accepts_exactly_x0_to_x9 :
    (∀ r : Register, parse_asm (movLine r) =
      if regIndex r ≤ 9 then some [Op.Mov r (RegOrNum.Num 1)] else none) ∧
    parse_asm "mov x31, #1" = none := by
  refine ⟨fun r => ?_, by decide⟩
  cases r <;> decide

/-- C1 (code divergence): at a reachable failing input where register A's
value is strictly less than register B's, the Compare leaves the condition
flag Eq rather than setting it to LessThan; eval_cmp never writes the flag. -/
theorem cmp_does_not_set_flag_at_failing_input :
    stateAfter cmpProg 1 = some (ctxAfterMov, 1) ∧
    get_reg ctxAfterMov Register.X0 < get_reg ctxAfterMov Register.X1 ∧
    step cmpProg ctxAfterMov 1 = StepResult.next ctxAfterMov 2 ∧
    ctxAfterMov.cond = Condition.Eq ∧
    ctxAfterMov.cond ≠ Condition.Lt := by
  decide

/-- C2 (code divergence): a Compare does redirect control flow: at a
reachable state whose Compare sits at index 3 with A's value less than B's,
the next program counter is 2 rather than 4, and when A's value is not less
than B's the run returns immediately instead of continuing at pc + 1. -/
theorem cmp_redirects_control_flow :
    stateAfter cmpJumpProg 3 = some (ctxJump, 3) ∧
    step cmpJumpProg ctxJump 3 = StepResult.next ctxJump 2 ∧
    (2 : Nat) ≠ 3 + 1 ∧
    step cmpHaltProg Context.new 0 = StepResult.halt Context.new ∧
    runFuel cmpHaltProg 5 Context.new 0 = RunResult.halted Context.new := by
  decide

end Emulator
